import Mathlib

/-!
A shallow embedding of the virtual-memory manager in src/virtual_memory.py
(class VMManager), together with proofs about its claimed properties.

Modelling conventions, each justified against the source:

* Physical memory `PM` (a Python list of 524288 ints) is embedded as a total
  function ℕ → ℤ.  The source indexes it directly; an out-of-range index would
  raise in Python, so a separate instrumentation component records every PM
  index the translation path reads or writes, and bounds claims are stated
  about that list of indices.
* `DISK` (1024 lists of 512 ints) is a total function ℕ → ℕ → ℤ; the source
  only ever writes it during initialization and never reads it back.
* `used_frames` (a Python set of ints; only non-negative ints are ever added)
  is a `Finset ℕ`.
* `frame_access_count` (a dict read exclusively through `.get(f, 0)`) is a
  total function ℕ → ℕ with default 0; deleting a key is embedded as resetting
  the value to 0, which is observationally equivalent since every read in the
  source uses the 0 default.
* `allocations` (an insertion-ordered dict addr -> (num_frames, [frames])) is
  an association list; overwriting a key keeps its position, like a dict.
* The dead fields `segment_table` and `page_tables` (assigned in __init__ and
  never used again) are omitted.
* Python's `min(candidate_frames, key=...)` iterates a set in an unspecified
  order when several frames tie on the key.  The embedding fixes the
  lowest-frame tie-break; every theorem about eviction below either holds for
  any tie-break or is stated on inputs where the candidate choice is forced.
* `math.ceil(size / 512)` for a natural `size` is `(size + 511) / 512`.
-/

/-- Pointwise update of the physical-memory function, `PM[i] = v`. -/
def upd (f : ℕ → ℤ) (i : ℕ) (v : ℤ) : ℕ → ℤ :=
  fun j => if j = i then v else f j

/-- The mutable state of a `VMManager` instance. -/
structure VMState where
  PM : ℕ → ℤ
  DISK : ℕ → ℕ → ℤ
  used_frames : Finset ℕ
  next_free_frame : ℕ
  highest_frame : ℕ
  frame_access_count : ℕ → ℕ
  allocations : List (ℕ × ℕ × List ℕ)

/-- `VMManager.__init__`: fresh state with frames 0 and 1 reserved. -/
def freshState : VMState where
  PM := fun _ => 0
  DISK := fun _ _ => 0
  used_frames := {0, 1}
  next_free_frame := 2
  highest_frame := 1
  frame_access_count := fun _ => 0
  allocations := []

/-- The `while frame in self.used_frames: frame += 1` search of
`get_next_free_frame`.  `used.card + 1` steps always suffice to leave the
finite set, so the fuelled recursion computes exactly the source's loop. -/
def findFreeAux (used : Finset ℕ) : ℕ → ℕ → ℕ
  | 0, f => f
  | fuel + 1, f => if f ∈ used then findFreeAux used fuel (f + 1) else f

/-- `VMManager.get_next_free_frame`: first frame at or above
`max(next_free_frame, highest_frame + 1)` not in `used_frames`; marks it used
and advances the cursor past it. -/
def get_next_free_frame (st : VMState) : ℕ × VMState :=
  let start := max st.next_free_frame (st.highest_frame + 1)
  let frame := findFreeAux st.used_frames (st.used_frames.card + 1) start
  (frame,
   { st with used_frames := insert frame st.used_frames,
             next_free_frame := frame + 1 })

/-- `VMManager.access_frame`: increment the LFU counter of a frame. -/
def access_frame (st : VMState) (f : ℕ) : VMState :=
  { st with
    frame_access_count :=
      fun g => if g = f then st.frame_access_count f + 1 else st.frame_access_count g }

/-- Lexicographic key order (access count, then frame index) used to embed
Python's `min(..., key=...)` with a fixed tie-break. -/
def keyle (count : ℕ → ℕ) (a b : ℕ) : Prop :=
  count a < count b ∨ (count a = count b ∧ a ≤ b)

instance (count : ℕ → ℕ) (a b : ℕ) : Decidable (keyle count a b) := by
  unfold keyle; infer_instance

/-- The smaller of two frames under `keyle`. -/
def pickMin (count : ℕ → ℕ) (a b : ℕ) : ℕ :=
  if keyle count a b then a else b

/-- `pickMin` lifted to `Option`, with `none` as identity, so that it can be
folded over a `Finset`. -/
def pick2 (count : ℕ → ℕ) : Option ℕ → Option ℕ → Option ℕ
  | none, y => y
  | some a, none => some a
  | some a, some b => some (pickMin count a b)

theorem pickMin_comm (count : ℕ → ℕ) (a b : ℕ) : pickMin count a b = pickMin count b a := by
  unfold pickMin keyle; split_ifs <;> omega

theorem pickMin_assoc (count : ℕ → ℕ) (a b c : ℕ) :
    pickMin count (pickMin count a b) c = pickMin count a (pickMin count b c) := by
  by_cases hab : keyle count a b <;> by_cases hbc : keyle count b c <;>
    by_cases hac : keyle count a c <;>
    simp only [pickMin, hab, hbc, hac, if_true, if_false, if_pos, if_neg, not_false_iff] <;>
    simp only [keyle] at * <;> omega

instance (count : ℕ → ℕ) : Std.Commutative (pick2 count) := by
  constructor
  intro x y
  cases x <;> cases y <;> simp [pick2, pickMin_comm]

instance (count : ℕ → ℕ) : Std.Associative (pick2 count) := by
  constructor
  intro x y z
  cases x <;> cases y <;> cases z <;> simp [pick2, pickMin_assoc]

/-- `min(candidate_frames, key=lambda f: count.get(f, 0))`, returning `none`
on an empty candidate set. -/
def lfuPick (count : ℕ → ℕ) (cands : Finset ℕ) : Option ℕ :=
  Finset.fold (pick2 count) none some cands

/-- `VMManager.evict_lfu_frame`: pick the least-frequently-used frame among
`used_frames - {0, 1}`, remove it from `used_frames` and drop its counter. -/
def evict_lfu_frame (st : VMState) : Option ℕ × VMState :=
  match lfuPick st.frame_access_count (st.used_frames \ {0, 1}) with
  | none => (none, st)
  | some f =>
    (some f,
     { st with used_frames := st.used_frames.erase f,
               frame_access_count := fun g => if g = f then 0 else st.frame_access_count g })

/-- The frame-acquisition step of `handle_page_fault` (its lines 125-131):
a fresh frame while the pool has capacity, otherwise an LFU eviction. -/
def acquireFrame (st : VMState) : Option ℕ × VMState :=
  if st.used_frames.card < 1024 then
    let r := get_next_free_frame st
    (some r.1, r.2)
  else evict_lfu_frame st

/-- `VMManager.handle_page_fault`.  The third component of the result lists
the PM indices the source reads or writes in this call (the source never
reads DISK here; its `abs(...)` disk-block computations are dead).  For a
page-table fault the source passes `page=None`; callers of this embedding
pass 0, which the `is_pt = true` branch ignores just as the source does. -/
def handle_page_fault (st : VMState) (segment page : ℕ) (is_pt : Bool) :
    Option ℕ × VMState × List ℕ :=
  match acquireFrame st with
  | (none, st1) => (none, st1, [])
  | (some frame, st1) =>
    if is_pt then
      (some frame,
       { st1 with PM := upd st1.PM (2 * segment + 1) (frame : ℤ) },
       [2 * segment + 1])
    else
      let ptLoc := (st1.PM (2 * segment + 1)).toNat
      let idx := ptLoc * 512 + page
      (some frame, { st1 with PM := upd st1.PM idx (frame : ℤ) }, [2 * segment + 1, idx])

/-- The 9-bit word-offset field `va & 0x1FF`. -/
def vaW (va : ℕ) : ℕ := va % 512

/-- The 9-bit page field `(va >> 9) & 0x1FF`. -/
def vaP (va : ℕ) : ℕ := va / 512 % 512

/-- The 9-bit segment field `(va >> 18) & 0x1FF`. -/
def vaSeg (va : ℕ) : ℕ := va / 262144 % 512

/-- The combined 18-bit page+offset field `va & 0x3FFFF`. -/
def vaPW (va : ℕ) : ℕ := va % 262144

/-- The page-table resolution step of `translate_address` (its lines
103-108): a resident page table is used as-is, one on disk (negative entry)
goes through the page-fault handler. -/
def ptStepF (st : VMState) (s : ℕ) : Option ℕ × VMState × List ℕ :=
  if st.PM (2 * s + 1) < 0 then handle_page_fault st s 0 true
  else (some (st.PM (2 * s + 1)).toNat, st, [])

/-- The page resolution and final-address step of `translate_address` (its
lines 111-121), run after the page-table frame `ptf` has been accessed:
read the page entry, fault it in if negative, record the access and return
`page_frame * 512 + w`. -/
def pageStep (st2 : VMState) (s p w ptf : ℕ) : Option ℤ × VMState × List ℕ :=
  match (if st2.PM (ptf * 512 + p) < 0 then handle_page_fault st2 s p false
         else (some (st2.PM (ptf * 512 + p)).toNat, st2, [])) with
  | (none, st3, acc2) => (none, st3, (ptf * 512 + p) :: acc2)
  | (some pgf, st3, acc2) =>
    (some ((pgf : ℤ) * 512 + w), access_frame st3 pgf, (ptf * 512 + p) :: acc2)

/-- `VMManager.translate_address`.  Returns the translation result (`none`
for a fault, rendered as -1 by `process_addresses`), the state after the
call, and the list of PM indices read or written during the call. -/
def translate_address (st : VMState) (va : ℕ) : Option ℤ × VMState × List ℕ :=
  let w := vaW va
  let p := vaP va
  let s := vaSeg va
  let pw := vaPW va
  if 524288 ≤ 2 * s then (none, st, [])
  else if st.PM (2 * s) = 0 then (none, st, [2 * s])
  else if st.PM (2 * s) ≤ (pw : ℤ) then (none, st, [2 * s])
  else
    match ptStepF st s with
    | (none, st1, acc1) => (none, st1, 2 * s :: (2 * s + 1) :: acc1)
    | (some ptf, st1, acc1) =>
      let r := pageStep (access_frame st1 ptf) s p w ptf
      (r.1, r.2.1, 2 * s :: (2 * s + 1) :: acc1 ++ r.2.2)

/-- `VMManager.process_addresses`, minus the file I/O: translate each address
in order, threading the state, rendering faults as the sentinel -1. -/
def process_addresses (st : VMState) : List ℕ → List ℤ × VMState
  | [] => ([], st)
  | va :: more =>
    let r := translate_address st va
    let rest := process_addresses r.2.1 more
    ((match r.1 with | some pa => pa | none => -1) :: rest.1, rest.2)

/-- One segment-table triple `(s, z, f)` of line 1 of the init file, as
consumed by `initialize_from_file`: `PM[2s] = z`, `PM[2s+1] = f`, and a
positive `f` is recorded as a used frame and in the high-water mark. -/
def stepSeg (st : VMState) (e : ℕ × ℤ × ℤ) : VMState :=
  let st1 := { st with PM := upd (upd st.PM (2 * e.1) e.2.1) (2 * e.1 + 1) e.2.2 }
  if 0 < e.2.2 then
    { st1 with used_frames := insert e.2.2.toNat st1.used_frames,
               highest_frame := max st1.highest_frame e.2.2.toNat }
  else st1

/-- One page-table triple `(s, p, f)` of line 2 of the init file: routed into
the resident page table or onto the disk block, per the sign of `PM[2s+1]`. -/
def stepPage (st : VMState) (e : ℕ × ℕ × ℤ) : VMState :=
  if 0 < st.PM (2 * e.1 + 1) then
    let ptBase := (st.PM (2 * e.1 + 1)).toNat * 512
    let st1 := { st with PM := upd st.PM (ptBase + e.2.1) e.2.2 }
    if 0 < e.2.2 then
      { st1 with used_frames := insert e.2.2.toNat st1.used_frames,
                 highest_frame := max st1.highest_frame e.2.2.toNat }
    else st1
  else
    let db := (st.PM (2 * e.1 + 1)).natAbs
    let st1 :=
      { st with DISK := fun b u => if b = db ∧ u = e.2.1 then e.2.2 else st.DISK b u }
    if 0 < e.2.2 then { st1 with highest_frame := max st1.highest_frame e.2.2.toNat }
    else st1

/-- `VMManager.initialize_from_file` applied to the parsed token triples of
the two input lines, starting from a fresh instance as `main` does. -/
def initFromFile (segs : List (ℕ × ℤ × ℤ)) (pages : List (ℕ × ℕ × ℤ)) : VMState :=
  let st1 := segs.foldl stepSeg freshState
  let st2 := pages.foldl stepPage st1
  { st2 with next_free_frame := st2.highest_frame + 1 }

/-- The inner check of malloc's scan: frames `cur .. cur+n-1` all free. -/
def blockFree (used : Finset ℕ) (cur n : ℕ) : Bool :=
  decide (∀ off < n, cur + off ∉ used)

/-- The cursor values malloc's scan visits: `cur` from `next_free_frame`
while `cur <= 1024 - num_frames` (in Python's signed arithmetic, hence the
explicit guard for `n > 1024`). -/
def scanCands (nf n : ℕ) : List ℕ :=
  if 1024 < n then [] else List.range' nf (1025 - n - nf)

/-- malloc's scan for the first block of `n` consecutive free frames. -/
def firstFit (used : Finset ℕ) (nf n : ℕ) : Option ℕ :=
  (scanCands nf n).find? (fun cur => blockFree used cur n)

/-- malloc's cursor advance after a successful allocation:
`while next_candidate in used_frames and next_candidate < 1024: += 1`.
The `< 1024` guard bounds the loop, so 1025 steps of fuel always suffice. -/
def advanceCursor (used : Finset ℕ) : ℕ → ℕ → ℕ
  | 0, nc => nc
  | fuel + 1, nc => if nc ∈ used ∧ nc < 1024 then advanceCursor used fuel (nc + 1) else nc

/-- Dict lookup in `allocations`. -/
def alLookup : List (ℕ × ℕ × List ℕ) → ℕ → Option (ℕ × List ℕ)
  | [], _ => none
  | e :: l, k => if e.1 = k then some e.2 else alLookup l k

/-- Dict store `allocations[k] = v`: overwrite in place or append. -/
def alInsert : List (ℕ × ℕ × List ℕ) → ℕ → ℕ × List ℕ → List (ℕ × ℕ × List ℕ)
  | [], k, v => [(k, v)]
  | e :: l, k, v => if e.1 = k then (k, v) :: l else e :: alInsert l k v

/-- Dict delete `del allocations[k]`. -/
def alErase : List (ℕ × ℕ × List ℕ) → ℕ → List (ℕ × ℕ × List ℕ)
  | [], _ => []
  | e :: l, k => if e.1 = k then l else e :: alErase l k

/-- malloc's post-eviction fixup: remove the evicted frame from every
allocation record that owned it, deleting records that become empty. -/
def stripFrame (allocs : List (ℕ × ℕ × List ℕ)) (lfu : ℕ) : List (ℕ × ℕ × List ℕ) :=
  allocs.filterMap (fun e =>
    if lfu ∈ e.2.2 then
      let fl := e.2.2.erase lfu
      if fl = [] then none else some (e.1, fl.length, fl)
    else some e)

/-- malloc's retry loop, fuelled by the remaining `attempts` budget.  The
source runs the scan for `attempts = 0 .. 1024` (1025 scans) and performs an
eviction plus record fixup after every failed scan, including the last. -/
def mallocLoop (n : ℕ) : ℕ → VMState → ℤ × VMState
  | 0, st => (-1, st)
  | fuel + 1, st =>
    match firstFit st.used_frames st.next_free_frame n with
    | some cur =>
      let fl := List.range' cur n
      let used1 := st.used_frames ∪ fl.toFinset
      let h1 := if n = 0 then st.highest_frame else max st.highest_frame (cur + n - 1)
      let addr := cur * 512
      ((addr : ℤ),
       { st with used_frames := used1,
                 highest_frame := h1,
                 next_free_frame := advanceCursor used1 1025 (cur + n),
                 allocations := alInsert st.allocations addr (n, fl) })
    | none =>
      match evict_lfu_frame st with
      | (none, st1) => (-1, st1)
      | (some lfu, st1) =>
        mallocLoop n fuel { st1 with allocations := stripFrame st1.allocations lfu }

/-- `VMManager.malloc`. -/
def malloc (st : VMState) (size : ℕ) : ℤ × VMState :=
  mallocLoop ((size + 511) / 512) 1025 st

/-- `VMManager.free`. -/
def free (st : VMState) (address : ℕ) : Bool × VMState :=
  match alLookup st.allocations address with
  | none => (false, st)
  | some nfl =>
    (true,
     { st with
       used_frames := nfl.2.foldl (fun u f => u.erase f) st.used_frames,
       frame_access_count := fun g => if g ∈ nfl.2 then 0 else st.frame_access_count g,
       allocations := alErase st.allocations address })

/-- `VMManager.realloc`. -/
def realloc (st : VMState) (address : ℕ) (new_size : ℕ) : ℤ × VMState :=
  match alLookup st.allocations address with
  | none => (-1, st)
  | some nfl =>
    let new_n := (new_size + 511) / 512
    if new_n = nfl.1 then ((address : ℤ), st)
    else if new_n < nfl.1 then
      let toFree := nfl.2.drop new_n
      ((address : ℤ),
       { st with
         used_frames := toFree.foldl (fun u f => u.erase f) st.used_frames,
         frame_access_count := fun g => if g ∈ toFree then 0 else st.frame_access_count g,
         allocations := alInsert st.allocations address (new_n, nfl.2.take new_n) })
    else
      let r := malloc st new_size
      if r.1 = -1 then (-1, r.2)
      else (r.1, (free r.2 address).2)

/-- State after a `translate_address` call. -/
def translateS (st : VMState) (va : ℕ) : VMState := (translate_address st va).2.1

/-- State after a `malloc` call. -/
def mallocS (st : VMState) (size : ℕ) : VMState := (malloc st size).2

/-- State after a `free` call. -/
def freeS (st : VMState) (address : ℕ) : VMState := (free st address).2

/-- State after a `realloc` call. -/
def reallocS (st : VMState) (address new_size : ℕ) : VMState :=
  (realloc st address new_size).2

/-- States reachable from a fresh or freshly initialized `VMManager` under
any sequence of the four public operations. -/
inductive Reachable : VMState → Prop where
  | boot : Reachable freshState
  | fromFile : ∀ segs pages, Reachable (initFromFile segs pages)
  | tr : ∀ st va, Reachable st → Reachable (translateS st va)
  | mal : ∀ st size, Reachable st → Reachable (mallocS st size)
  | fre : ∀ st address, Reachable st → Reachable (freeS st address)
  | rea : ∀ st address new_size, Reachable st → Reachable (reallocS st address new_size)

/-! ### Properties of the LFU pick -/

theorem lfuPick_empty (count : ℕ → ℕ) : lfuPick count ∅ = none := rfl

theorem lfuPick_insert (count : ℕ → ℕ) (a : ℕ) (s : Finset ℕ) (h : a ∉ s) :
    lfuPick count (insert a s) = pick2 count (some a) (lfuPick count s) := by
  unfold lfuPick
  rw [Finset.fold_insert h]

theorem lfuPick_eq_none_iff (count : ℕ → ℕ) (s : Finset ℕ) :
    lfuPick count s = none ↔ s = ∅ := by
  induction s using Finset.induction_on with
  | empty => simp [lfuPick_empty]
  | insert h ih =>
    rename_i a s
    rw [lfuPick_insert count a s h]
    constructor
    · intro hc
      cases hp : lfuPick count s <;> simp [pick2, hp] at hc
    · intro hc
      exact absurd hc (Finset.insert_ne_empty a s)

theorem lfuPick_mem (count : ℕ → ℕ) (s : Finset ℕ) :
    ∀ f, lfuPick count s = some f → f ∈ s := by
  induction s using Finset.induction_on with
  | empty => intro f h; simp [lfuPick_empty] at h
  | insert hn ih =>
    rename_i a s
    intro f h
    rw [lfuPick_insert count a s hn] at h
    cases hp : lfuPick count s with
    | none => simp [pick2, hp] at h; simp [← h]
    | some b =>
      simp only [pick2, hp] at h
      injection h with h
      unfold pickMin at h
      split_ifs at h <;> subst h
      · exact Finset.mem_insert_self a s
      · exact Finset.mem_insert_of_mem (ih b hp)

theorem lfuPick_min (count : ℕ → ℕ) (s : Finset ℕ) :
    ∀ f, lfuPick count s = some f → ∀ g ∈ s, count f ≤ count g := by
  induction s using Finset.induction_on with
  | empty => intro f h; simp [lfuPick_empty] at h
  | insert hn ih =>
    rename_i a s
    intro f h g hg
    rw [lfuPick_insert count a s hn] at h
    rcases Finset.mem_insert.mp hg with hg | hg
    · subst hg
      cases hp : lfuPick count s with
      | none => simp [pick2, hp] at h; subst h; exact le_refl _
      | some b =>
        simp only [pick2, hp] at h
        injection h with h
        unfold pickMin keyle at h
        split_ifs at h <;> subst h <;> omega
    · cases hp : lfuPick count s with
      | none => rw [lfuPick_eq_none_iff] at hp; subst hp; simp at hg
      | some b =>
        have hb := ih b hp g hg
        simp only [pick2, hp] at h
        injection h with h
        unfold pickMin keyle at h
        split_ifs at h <;> subst h <;> omega

/-! ### The used-frames consistency invariant of claim C1 -/

/-- Frame `f` currently backs a resident page table: some present segment's
table entry points at it. -/
def backsResidentPT (st : VMState) (f : ℕ) : Prop :=
  ∃ s, s < 512 ∧ st.PM (2 * s) ≠ 0 ∧ 0 < st.PM (2 * s + 1) ∧ st.PM (2 * s + 1) = (f : ℤ)

/-- Frame `f` currently backs a resident page: some present segment's
resident page table has an entry pointing at it. -/
def backsResidentPage (st : VMState) (f : ℕ) : Prop :=
  ∃ s p, s < 512 ∧ p < 512 ∧ st.PM (2 * s) ≠ 0 ∧ 0 < st.PM (2 * s + 1) ∧
    0 < st.PM ((st.PM (2 * s + 1)).toNat * 512 + p) ∧
    st.PM ((st.PM (2 * s + 1)).toNat * 512 + p) = (f : ℤ)

/-- Frame `f` is listed in some allocation record. -/
def inAllocationRecord (st : VMState) (f : ℕ) : Prop :=
  ∃ e ∈ st.allocations, f ∈ e.2.2

/-- The claimed reference-counted consistency: a frame is in `used_frames`
iff it backs the segment table (frames 0 and 1), a resident page table, a
resident page, or an allocation record. -/
def framesConsistent (st : VMState) : Prop :=
  ∀ f : ℕ, f ∈ st.used_frames ↔
    (f = 0 ∨ f = 1 ∨ backsResidentPT st f ∨ backsResidentPage st f ∨ inAllocationRecord st f)

/-- The reachable state of the C1 refutation: initialize with segment 0 of
size 100, page table resident at frame 2, page 0 resident at frame 3, then
run one failing `malloc` whose retry loop evicts both frames. -/
def c1State : VMState := mallocS (initFromFile [(0, 100, 2)] [(0, 0, 3)]) 524288

/-- Claim C1 (code bug): the used-frames consistency invariant is NOT
preserved by the code.  In the reachable state `c1State`, frame 2 still
backs the resident page table of segment 0 (the failed malloc's eviction
loop removed it from `used_frames` without clearing `PM[1]`), so
`used_frames` disagrees with the ownership predicate. -/
theorem c1_invariant_violated :
    Reachable c1State ∧ backsResidentPT c1State 2 ∧ 2 ∉ c1State.used_frames
    ∧ ¬ framesConsistent c1State := by
  have hpt : backsResidentPT c1State 2 := ⟨0, by omega, by decide, by decide, by decide⟩
  have hnot : 2 ∉ c1State.used_frames := by decide
  refine ⟨Reachable.mal _ _ (Reachable.fromFile _ _), hpt, hnot, fun hcons => ?_⟩
  exact hnot ((hcons 2).mpr (Or.inr (Or.inr (Or.inl hpt))))

/-- Claim C2 (code bug): from the initialized state with segment 0 of size
1000 and its page table on disk block 7 holding a page at frame 1023, a
single `translate_address(0)` reads PM index 524288 = 1024 * 512, one past
the end of the 524288-word array (an IndexError in the source): the fault
handler hands out frame 1024 because `get_next_free_frame` is not bounded
by `TotalFrames`. -/
theorem c2_out_of_bounds_access :
    524288 ∈ (translate_address (initFromFile [(0, 1000, -7)] [(0, 0, 1023)]) 0).2.2
    ∧ ¬ 524288 < 524288 := ⟨by decide, by omega⟩

/-- Claim C3 (code bug): a growing `realloc` whose internal `malloc` fails
does NOT leave the old block untouched.  From a fresh state, `malloc(512)`
returns address 1024 with record `(1, [2])`; `realloc(1024, 524288)` fails
with -1, but the failed internal malloc's eviction loop evicted frame 2 and
deleted the record at 1024 entirely. -/
theorem c3_realloc_failure_destroys_block :
    alLookup (malloc freshState 512).2.allocations 1024 = some (1, [2])
    ∧ (malloc (malloc freshState 512).2 524288).1 = -1
    ∧ (realloc (malloc freshState 512).2 1024 524288).1 = -1
    ∧ alLookup (realloc (malloc freshState 512).2 1024 524288).2.allocations 1024 = none
    ∧ 2 ∉ (realloc (malloc freshState 512).2 1024 524288).2.used_frames :=
  ⟨by decide, by decide, by decide, by decide, by decide⟩

/-- Claim C4: the specified scenario.  After initialization with segment
line `0 100 2` and page line `0 0 3`, translating the virtual addresses
5 (s=0, p=0, w=5), 150 (s=0, pw=150) and 262144 (s=1) produces physical
address 1541 = 3*512+5, a bounds fault, and a segment fault. -/
theorem c4_scenario :
    (process_addresses (initFromFile [(0, 100, 2)] [(0, 0, 3)]) [5, 150, 262144]).1
      = [1541, -1, -1] := by decide

/-- Claim C5: a segment fault (segment out of range or size field 0) or a
bounds fault (`pw` at or above the size field) makes `translate_address`
return the fault result with the state completely unchanged. -/
theorem c5_fault_no_side_effect (st : VMState) (va : ℕ)
    (h : 524288 ≤ 2 * vaSeg va ∨ st.PM (2 * vaSeg va) = 0
         ∨ st.PM (2 * vaSeg va) ≤ (vaPW va : ℤ)) :
    (translate_address st va).1 = none ∧ (translate_address st va).2.1 = st := by
  simp only [translate_address]
  split_ifs with h1 h2 h3 <;>
    first
      | exact ⟨rfl, rfl⟩
      | (rcases h with h | h | h; exacts [absurd h h1, absurd h h2, absurd h h3])

/-- Witness for C5 at a concrete input: the fresh state has size field 0
for segment 0, so translating address 0 faults without side effects. -/
theorem c5_witness :
    (translate_address freshState 0).1 = none
    ∧ (translate_address freshState 0).2.1 = freshState :=
  c5_fault_no_side_effect freshState 0 (Or.inr (Or.inl rfl))

/-- Claim C8: `realloc` and `free` on an address that is not a key of the
allocations table return -1 and false respectively and mutate nothing. -/
theorem c8_unknown_address (st : VMState) (address new_size : ℕ)
    (h : alLookup st.allocations address = none) :
    realloc st address new_size = (-1, st) ∧ free st address = (false, st) := by
  unfold realloc free
  rw [h]
  exact ⟨rfl, rfl⟩

/-- Witness for C8: address 999 is unknown to the fresh state. -/
theorem c8_witness :
    realloc freshState 999 512 = (-1, freshState)
    ∧ free freshState 999 = (false, freshState) :=
  c8_unknown_address freshState 999 512 rfl

/-- Claim C9: `evict_lfu_frame` returns `none` exactly when
`used_frames - {0, 1}` is empty; otherwise it returns a member of that set
of minimal access count (absent counters reading as 0), removes it from
`used_frames`, drops its counter, and leaves every other state component
unchanged. -/
theorem c9_evict_lfu_spec (st : VMState) :
    ((evict_lfu_frame st).1 = none ↔ st.used_frames \ {0, 1} = ∅)
    ∧ ∀ f, (evict_lfu_frame st).1 = some f →
        f ∈ st.used_frames \ {0, 1}
        ∧ (∀ g ∈ st.used_frames \ {0, 1},
            st.frame_access_count f ≤ st.frame_access_count g)
        ∧ (evict_lfu_frame st).2.used_frames = st.used_frames.erase f
        ∧ (evict_lfu_frame st).2.frame_access_count
            = (fun g => if g = f then 0 else st.frame_access_count g)
        ∧ (evict_lfu_frame st).2.PM = st.PM
        ∧ (evict_lfu_frame st).2.DISK = st.DISK
        ∧ (evict_lfu_frame st).2.next_free_frame = st.next_free_frame
        ∧ (evict_lfu_frame st).2.highest_frame = st.highest_frame
        ∧ (evict_lfu_frame st).2.allocations = st.allocations := by
  cases hp : lfuPick st.frame_access_count (st.used_frames \ {0, 1}) with
  | none =>
    refine ⟨⟨fun _ => (lfuPick_eq_none_iff _ _).mp hp, fun _ => ?_⟩, fun f hf => ?_⟩
    · simp [evict_lfu_frame, hp]
    · simp [evict_lfu_frame, hp] at hf
  | some a =>
    have hmem := lfuPick_mem _ _ a hp
    constructor
    · constructor
      · intro hc; simp [evict_lfu_frame, hp] at hc
      · intro hc; rw [hc] at hmem; simp at hmem
    · intro f hf
      have hfa : a = f := by simpa [evict_lfu_frame, hp] using hf
      subst hfa
      exact ⟨hmem, lfuPick_min _ _ a hp, by simp [evict_lfu_frame, hp],
        by simp [evict_lfu_frame, hp], by simp [evict_lfu_frame, hp],
        by simp [evict_lfu_frame, hp], by simp [evict_lfu_frame, hp],
        by simp [evict_lfu_frame, hp], by simp [evict_lfu_frame, hp]⟩

/-- Witness for C9: with frames 0, 1, 2 used and no counters, eviction
picks frame 2, the only eligible candidate. -/
theorem c9_witness :
    (evict_lfu_frame (initFromFile [(0, 10, 2)] [])).1 = some 2
    ∧ 2 ∈ (initFromFile [(0, 10, 2)] []).used_frames \ {0, 1} :=
  ⟨by decide, ((c9_evict_lfu_spec (initFromFile [(0, 10, 2)] [])).2 2 (by decide)).1⟩

/-! ### Association-list and first-fit lemmas for the allocator -/

theorem alLookup_alInsert (l : List (ℕ × ℕ × List ℕ)) (k : ℕ) (v : ℕ × List ℕ) :
    alLookup (alInsert l k v) k = some v := by
  induction l with
  | nil => simp [alInsert, alLookup]
  | cons e l ih =>
    by_cases he : e.1 = k
    · simp [alInsert, alLookup, he]
    · simp [alInsert, alLookup, he, ih]

theorem alErase_alInsert (l : List (ℕ × ℕ × List ℕ)) (k : ℕ) (v : ℕ × List ℕ)
    (h : alLookup l k = none) :
    alErase (alInsert l k v) k = l := by
  induction l with
  | nil => simp [alInsert, alErase]
  | cons e l ih =>
    by_cases he : e.1 = k
    · simp [alLookup, he] at h
    · have h' : alLookup l k = none := by simpa [alLookup, he] using h
      simp [alInsert, alErase, he, ih h']

theorem eraseFold_union (fl : List ℕ) (u : Finset ℕ) (hnd : fl.Nodup)
    (hdisj : ∀ f ∈ fl, f ∉ u) :
    fl.foldl (fun uu f => uu.erase f) (u ∪ fl.toFinset) = u := by
  induction fl generalizing u with
  | nil => simp
  | cons a fl ih =>
    have ha_u : a ∉ u := hdisj a (List.mem_cons_self a fl)
    have ha_fl : a ∉ fl := (List.nodup_cons.mp hnd).1
    have hstep : (u ∪ (a :: fl).toFinset).erase a = u ∪ fl.toFinset := by
      rw [List.toFinset_cons, Finset.erase_union_distrib,
        Finset.erase_insert (by simpa using ha_fl), Finset.erase_eq_of_not_mem ha_u]
    simp only [List.foldl_cons]
    rw [hstep]
    exact ih u (List.nodup_cons.mp hnd).2 (fun f hf => hdisj f (List.mem_cons_of_mem a hf))

theorem firstFit_some (used : Finset ℕ) (nf n cur : ℕ)
    (h : firstFit used nf n = some cur) :
    nf ≤ cur ∧ ∀ off < n, cur + off ∉ used := by
  unfold firstFit at h
  have hmem := List.mem_of_find?_eq_some h
  have hp := List.find?_some h
  constructor
  · unfold scanCands at hmem
    split_ifs at hmem with h1
    · simp at hmem
    · exact (List.mem_range'_1.mp hmem).1
  · unfold blockFree at hp
    exact of_decide_eq_true hp

theorem firstFit_frames (used : Finset ℕ) (nf n cur : ℕ)
    (h : firstFit used nf n = some cur) :
    ∀ f ∈ List.range' cur n, f ∉ used := by
  intro f hf
  obtain ⟨hc, hlt⟩ := List.mem_range'_1.mp hf
  have hoff := (firstFit_some used nf n cur h).2 (f - cur) (by omega)
  have heq : cur + (f - cur) = f := by omega
  rwa [heq] at hoff

/-- The first-scan success case of `malloc`, spelled out. -/
theorem malloc_fit (size : ℕ) (st : VMState) (cur : ℕ)
    (hfit : firstFit st.used_frames st.next_free_frame ((size + 511) / 512) = some cur) :
    malloc st size =
      (((cur * 512 : ℕ) : ℤ),
       { st with
         used_frames := st.used_frames ∪ (List.range' cur ((size + 511) / 512)).toFinset,
         highest_frame :=
           if (size + 511) / 512 = 0 then st.highest_frame
           else max st.highest_frame (cur + (size + 511) / 512 - 1),
         next_free_frame :=
           advanceCursor (st.used_frames ∪ (List.range' cur ((size + 511) / 512)).toFinset)
             1025 (cur + (size + 511) / 512),
         allocations :=
           alInsert st.allocations (cur * 512)
             ((size + 511) / 512, List.range' cur ((size + 511) / 512)) }) := by
  show mallocLoop ((size + 511) / 512) (1024 + 1) st = _
  rw [mallocLoop, hfit]

/-- The record-found case of `free`, spelled out. -/
theorem free_found (st : VMState) (address : ℕ) (v : ℕ × List ℕ)
    (h : alLookup st.allocations address = some v) :
    free st address =
      (true,
       { st with
         used_frames := v.2.foldl (fun u f => u.erase f) st.used_frames,
         frame_access_count := fun g => if g ∈ v.2 then 0 else st.frame_access_count g,
         allocations := alErase st.allocations address }) := by
  unfold free
  rw [h]

/-- Counterexample to claim C6 as stated: from the state after one
`malloc(0)` (which records the empty allocation `(0, [])` at address 1024),
a second `malloc(0)` succeeds on the first scan and returns 1024 again,
overwriting the same key; the immediate `free(1024)` then deletes the
record, so `allocations` is NOT restored to its pre-malloc value. -/
theorem c6_cex :
    firstFit (malloc freshState 0).2.used_frames (malloc freshState 0).2.next_free_frame
        ((0 + 511) / 512) = some 2
    ∧ (malloc (malloc freshState 0).2 0).1 = ((2 * 512 : ℕ) : ℤ)
    ∧ (free (malloc (malloc freshState 0).2 0).2 1024).1 = true
    ∧ (free (malloc (malloc freshState 0).2 0).2 1024).2.used_frames
        = (malloc freshState 0).2.used_frames
    ∧ (malloc freshState 0).2.allocations = [(1024, 0, [])]
    ∧ (free (malloc (malloc freshState 0).2 0).2 1024).2.allocations = []
    ∧ (free (malloc (malloc freshState 0).2 0).2 1024).2.allocations
        ≠ (malloc freshState 0).2.allocations :=
  ⟨by decide, by decide, by decide, by decide, by decide, by decide, by decide⟩

/-- Claim C6, amended: if `malloc` succeeds on the first scan at frame `cur`
AND the returned address `cur * 512` was not already an allocation key, then
an immediate `free` of the returned address returns true and restores both
`used_frames` and `allocations` exactly. -/
theorem c6_malloc_free_roundtrip (st : VMState) (size cur : ℕ)
    (hfit : firstFit st.used_frames st.next_free_frame ((size + 511) / 512) = some cur)
    (hnew : alLookup st.allocations (cur * 512) = none) :
    (malloc st size).1 = ((cur * 512 : ℕ) : ℤ)
    ∧ (free (malloc st size).2 (cur * 512)).1 = true
    ∧ (free (malloc st size).2 (cur * 512)).2.used_frames = st.used_frames
    ∧ (free (malloc st size).2 (cur * 512)).2.allocations = st.allocations := by
  have hmal := malloc_fit size st cur hfit
  rw [hmal]
  have hlk : alLookup
      (alInsert st.allocations (cur * 512)
        ((size + 511) / 512, List.range' cur ((size + 511) / 512))) (cur * 512)
      = some ((size + 511) / 512, List.range' cur ((size + 511) / 512)) :=
    alLookup_alInsert _ _ _
  rw [free_found _ _ _ hlk]
  refine ⟨rfl, rfl, ?_, ?_⟩
  · exact eraseFold_union _ _ (List.nodup_range' _ _ _ (by norm_num))
      (firstFit_frames _ _ _ _ hfit)
  · exact alErase_alInsert _ _ _ hnew

/-- Witness for the amended C6: on the fresh state, `malloc(512)` allocates
frame 2 at address 1024 on its first scan; freeing 1024 restores the state. -/
theorem c6_witness :
    (malloc freshState 512).1 = ((2 * 512 : ℕ) : ℤ)
    ∧ (free (malloc freshState 512).2 (2 * 512)).1 = true
    ∧ (free (malloc freshState 512).2 (2 * 512)).2.used_frames = freshState.used_frames
    ∧ (free (malloc freshState 512).2 (2 * 512)).2.allocations = freshState.allocations :=
  c6_malloc_free_roundtrip freshState 512 2 (by decide) rfl

theorem firstFit_zero (used : Finset ℕ) (nf : ℕ) (hnf : nf ≤ 1024) :
    firstFit used nf 0 = some nf := by
  unfold firstFit scanCands
  rw [if_neg (by omega)]
  have hlen : 1025 - 0 - nf = (1024 - nf) + 1 := by omega
  rw [hlen, List.range'_succ]
  have hb : blockFree used nf 0 = true :=
    decide_eq_true (fun off hoff => absurd hoff (Nat.not_lt_zero off))
  exact List.find?_cons_of_pos _ hb

/-- Counterexample to claim C10 as stated: for a reachable state whose
cursor `next_free_frame` exceeds 1024 (here produced by an init file that
places a page table at frame 1024), `malloc(0)` does NOT succeed: the scan
range is empty, the retry loop evicts until no candidate remains, and the
failure sentinel -1 is returned instead of `next_free_frame * 512`. -/
theorem c10_cex :
    (initFromFile [(0, 10, 1024)] []).next_free_frame = 1025
    ∧ (malloc (initFromFile [(0, 10, 1024)] []) 0).1 = -1 :=
  ⟨by decide, by decide⟩

/-- Claim C10, amended: for every state whose cursor is at most 1024,
`malloc` with a size of zero required frames succeeds on the first scan:
it returns `next_free_frame * 512` (not the failure sentinel), adds no
frame to `used_frames`, and records the empty allocation `(0, [])` at the
returned address. -/
theorem c10_malloc_zero (st : VMState) (size : ℕ)
    (hsz : (size + 511) / 512 = 0) (hnf : st.next_free_frame ≤ 1024) :
    (malloc st size).1 = ((st.next_free_frame * 512 : ℕ) : ℤ)
    ∧ (malloc st size).1 ≠ -1
    ∧ (malloc st size).2.used_frames = st.used_frames
    ∧ alLookup (malloc st size).2.allocations (st.next_free_frame * 512) = some (0, []) := by
  have hfit : firstFit st.used_frames st.next_free_frame ((size + 511) / 512)
      = some st.next_free_frame := by
    rw [hsz]; exact firstFit_zero _ _ hnf
  have hmal := malloc_fit size st st.next_free_frame hfit
  rw [hmal]
  refine ⟨rfl, ?_, ?_, ?_⟩
  · intro hc
    have := Int.natCast_nonneg (st.next_free_frame * 512)
    omega
  · show st.used_frames ∪ (List.range' st.next_free_frame ((size + 511) / 512)).toFinset
        = st.used_frames
    rw [hsz]
    simp
  · show alLookup (alInsert st.allocations (st.next_free_frame * 512)
        ((size + 511) / 512, List.range' st.next_free_frame ((size + 511) / 512)))
        (st.next_free_frame * 512) = some (0, [])
    rw [hsz]
    simpa using alLookup_alInsert st.allocations (st.next_free_frame * 512) (0, [])

/-- Witness for the amended C10: `malloc(0)` on the fresh state returns
address 1024 = 2 * 512 and records the empty allocation. -/
theorem c10_witness :
    (malloc freshState 0).1 = ((freshState.next_free_frame * 512 : ℕ) : ℤ)
    ∧ (malloc freshState 0).1 ≠ -1
    ∧ (malloc freshState 0).2.used_frames = freshState.used_frames
    ∧ alLookup (malloc freshState 0).2.allocations (freshState.next_free_frame * 512)
        = some (0, []) :=
  c10_malloc_zero freshState 0 (by decide) (by decide)

/-! ### The reserved-frames invariant of claim C7 -/

/-- Every frame listed in any allocation record is at least 2. -/
def AllocOK (allocs : List (ℕ × ℕ × List ℕ)) : Prop :=
  ∀ e ∈ allocs, ∀ f ∈ e.2.2, 2 ≤ f

/-- The state invariant feeding C7: the allocation cursor never points below
frame 2, the high-water mark never drops below frame 1, and allocation
records only hold frames at or above 2. -/
def VMInv (st : VMState) : Prop :=
  2 ≤ st.next_free_frame ∧ 1 ≤ st.highest_frame ∧ AllocOK st.allocations

theorem findFreeAux_ge (used : Finset ℕ) (fuel : ℕ) :
    ∀ start, start ≤ findFreeAux used fuel start := by
  induction fuel with
  | zero => intro start; exact le_refl _
  | succ fuel ih =>
    intro start
    unfold findFreeAux
    split_ifs
    · exact le_trans (by omega) (ih (start + 1))
    · exact le_refl _

theorem gnff_ge (st : VMState) : st.next_free_frame ≤ (get_next_free_frame st).1 :=
  le_trans (le_max_left _ _) (findFreeAux_ge _ _ _)

theorem inv_gnff (st : VMState) (h : VMInv st) : VMInv (get_next_free_frame st).2 := by
  obtain ⟨h1, h2, h3⟩ := h
  have hge := gnff_ge st
  have hnf : (get_next_free_frame st).2.next_free_frame = (get_next_free_frame st).1 + 1 := rfl
  exact ⟨by omega, h2, h3⟩

theorem inv_evict (st : VMState) (h : VMInv st) : VMInv (evict_lfu_frame st).2 := by
  cases hp : lfuPick st.frame_access_count (st.used_frames \ {0, 1}) with
  | none => simpa [evict_lfu_frame, hp] using h
  | some a =>
    obtain ⟨h1, h2, h3⟩ := h
    refine ⟨?_, ?_, ?_⟩ <;> simp [evict_lfu_frame, hp]
    · exact h1
    · exact h2
    · exact h3

theorem inv_acquire (st : VMState) (h : VMInv st) : VMInv (acquireFrame st).2 := by
  unfold acquireFrame
  split_ifs with hc
  · exact inv_gnff st h
  · exact inv_evict st h

theorem inv_hpf (st : VMState) (seg page : ℕ) (b : Bool) (h : VMInv st) :
    VMInv (handle_page_fault st seg page b).2.1 := by
  unfold handle_page_fault
  rcases hq : acquireFrame st with ⟨opt, st1⟩
  have h1 : VMInv st1 := by
    have : st1 = (acquireFrame st).2 := by rw [hq]
    rw [this]
    exact inv_acquire st h
  cases opt with
  | none => exact h1
  | some frame =>
    split_ifs with hb
    · exact ⟨h1.1, h1.2.1, h1.2.2⟩
    · exact ⟨h1.1, h1.2.1, h1.2.2⟩

theorem inv_access (st : VMState) (f : ℕ) (h : VMInv st) : VMInv (access_frame st f) :=
  ⟨h.1, h.2.1, h.2.2⟩

theorem inv_ptStepF (st : VMState) (s : ℕ) (h : VMInv st) : VMInv (ptStepF st s).2.1 := by
  unfold ptStepF
  split_ifs with hb
  · exact inv_hpf _ _ _ _ h
  · exact h

theorem inv_pageStep (st2 : VMState) (s p w ptf : ℕ) (h : VMInv st2) :
    VMInv (pageStep st2 s p w ptf).2.1 := by
  unfold pageStep
  rcases hE : (if st2.PM (ptf * 512 + p) < 0 then handle_page_fault st2 s p false
      else (some (st2.PM (ptf * 512 + p)).toNat, st2, [])) with ⟨opt, st3, acc⟩
  have h3 : VMInv st3 := by
    have : st3 = (if st2.PM (ptf * 512 + p) < 0 then handle_page_fault st2 s p false
        else (some (st2.PM (ptf * 512 + p)).toNat, st2, [])).2.1 := by rw [hE]
    rw [this]
    split_ifs with hb
    · exact inv_hpf _ _ _ _ h
    · exact h
  cases opt with
  | none => exact h3
  | some pgf => exact ⟨h3.1, h3.2.1, h3.2.2⟩

theorem inv_translate (st : VMState) (va : ℕ) (h : VMInv st) :
    VMInv (translate_address st va).2.1 := by
  simp only [translate_address]
  split_ifs with h1 h2 h3
  · exact h
  · exact h
  · exact h
  · rcases hE : ptStepF st (vaSeg va) with ⟨opt, st1, acc1⟩
    have hI1 : VMInv st1 := by
      have : st1 = (ptStepF st (vaSeg va)).2.1 := by rw [hE]
      rw [this]
      exact inv_ptStepF _ _ h
    cases opt with
    | none => exact hI1
    | some ptf => exact inv_pageStep _ _ _ _ _ (inv_access st1 ptf hI1)

theorem advanceCursor_ge (used : Finset ℕ) (fuel : ℕ) :
    ∀ nc, nc ≤ advanceCursor used fuel nc := by
  induction fuel with
  | zero => intro nc; exact le_refl _
  | succ fuel ih =>
    intro nc
    unfold advanceCursor
    split_ifs
    · exact le_trans (by omega) (ih (nc + 1))
    · exact le_refl _

theorem mem_alInsert (l : List (ℕ × ℕ × List ℕ)) (k : ℕ) (v : ℕ × List ℕ) :
    ∀ e ∈ alInsert l k v, e = (k, v) ∨ e ∈ l := by
  induction l with
  | nil => intro e he; simp [alInsert] at he; exact Or.inl he
  | cons e0 l ih =>
    intro e he
    unfold alInsert at he
    split_ifs at he with hk
    · rcases List.mem_cons.mp he with he | he
      · exact Or.inl he
      · exact Or.inr (List.mem_cons_of_mem _ he)
    · rcases List.mem_cons.mp he with he | he
      · exact Or.inr (by rw [he]; exact List.mem_cons_self _ _)
      · rcases ih e he with hcase | hcase
        · exact Or.inl hcase
        · exact Or.inr (List.mem_cons_of_mem _ hcase)

theorem mem_alErase (l : List (ℕ × ℕ × List ℕ)) (k : ℕ) :
    ∀ e ∈ alErase l k, e ∈ l := by
  induction l with
  | nil => intro e he; simp [alErase] at he
  | cons e0 l ih =>
    intro e he
    unfold alErase at he
    split_ifs at he with hk
    · exact List.mem_cons_of_mem _ he
    · rcases List.mem_cons.mp he with he | he
      · exact (List.mem_cons.mpr (Or.inl he))
      · exact List.mem_cons_of_mem _ (ih e he)

theorem alLookup_mem (l : List (ℕ × ℕ × List ℕ)) (k : ℕ) (v : ℕ × List ℕ)
    (h : alLookup l k = some v) : (k, v) ∈ l := by
  induction l with
  | nil => simp [alLookup] at h
  | cons e0 l ih =>
    unfold alLookup at h
    split_ifs at h with hk
    · injection h with h
      rw [← h, ← hk]
      exact List.mem_cons_self _ _
    · exact List.mem_cons_of_mem _ (ih h)

theorem stripFrame_allocOK (allocs : List (ℕ × ℕ × List ℕ)) (lfu : ℕ)
    (h : AllocOK allocs) : AllocOK (stripFrame allocs lfu) := by
  intro e he f hf
  unfold stripFrame at he
  rcases List.mem_filterMap.mp he with ⟨e0, he0, hmap⟩
  have base := h e0 he0
  by_cases hmem : lfu ∈ e0.2.2
  · simp only [hmem, if_true] at hmap
    split_ifs at hmap with hemp
    · cases hmap
      exact base f (List.mem_of_mem_erase hf)
  · simp only [hmem, if_false] at hmap
    cases hmap
    exact base f hf

theorem inv_mallocLoop (n : ℕ) : ∀ (fuel : ℕ) (st : VMState), VMInv st →
    VMInv (mallocLoop n fuel st).2 := by
  intro fuel
  induction fuel with
  | zero => intro st h; exact h
  | succ fuel ih =>
    intro st h
    simp only [mallocLoop]
    cases hfit : firstFit st.used_frames st.next_free_frame n with
    | some cur =>
      dsimp only
      obtain ⟨hnf, hh, hal⟩ := h
      have hcur := (firstFit_some _ _ _ _ hfit).1
      have hadv := advanceCursor_ge (st.used_frames ∪ (List.range' cur n).toFinset)
        1025 (cur + n)
      refine ⟨?_, ?_, ?_⟩
      · dsimp only
        omega
      · dsimp only
        split_ifs with hz
        · exact hh
        · exact le_trans hh (le_max_left _ _)
      · dsimp only
        intro e he f hf
        rcases mem_alInsert _ _ _ e he with he' | he'
        · have hf2 : f ∈ List.range' cur n := by rw [he'] at hf; exact hf
          have := (List.mem_range'_1.mp hf2).1
          omega
        · exact hal e he' f hf
    | none =>
      dsimp only
      rcases hev : evict_lfu_frame st with ⟨opt, st1⟩
      have h1 : VMInv st1 := by
        have : st1 = (evict_lfu_frame st).2 := by rw [hev]
        rw [this]
        exact inv_evict st h
      cases opt with
      | none => exact h1
      | some lfu => exact ih _ ⟨h1.1, h1.2.1, stripFrame_allocOK _ _ h1.2.2⟩

theorem inv_malloc (st : VMState) (size : ℕ) (h : VMInv st) : VMInv (malloc st size).2 :=
  inv_mallocLoop ((size + 511) / 512) 1025 st h

theorem inv_free (st : VMState) (address : ℕ) (h : VMInv st) : VMInv (free st address).2 := by
  cases hlk : alLookup st.allocations address with
  | none => simp only [free, hlk]; exact h
  | some v =>
    simp only [free, hlk]
    exact ⟨h.1, h.2.1, fun e he f hf => h.2.2 e (mem_alErase _ _ e he) f hf⟩

theorem inv_realloc (st : VMState) (address new_size : ℕ) (h : VMInv st) :
    VMInv (realloc st address new_size).2 := by
  cases hlk : alLookup st.allocations address with
  | none => simp only [realloc, hlk]; exact h
  | some v =>
    simp only [realloc, hlk]
    split_ifs with heq hlt hneg
    · exact h
    · refine ⟨h.1, h.2.1, fun e he f hf => ?_⟩
      rcases mem_alInsert _ _ _ e he with he' | he'
      · rw [he'] at hf
        exact h.2.2 (address, v) (alLookup_mem _ _ _ hlk) f (List.mem_of_mem_take hf)
      · exact h.2.2 e he' f hf
    · exact inv_malloc st new_size h
    · exact inv_free _ _ (inv_malloc st new_size h)

theorem stepSeg_pres (st : VMState) (e : ℕ × ℤ × ℤ)
    (h : 1 ≤ st.highest_frame ∧ AllocOK st.allocations) :
    1 ≤ (stepSeg st e).highest_frame ∧ AllocOK (stepSeg st e).allocations := by
  unfold stepSeg
  split_ifs with hf
  · exact ⟨le_trans h.1 (le_max_left _ _), h.2⟩
  · exact h

theorem stepPage_pres (st : VMState) (e : ℕ × ℕ × ℤ)
    (h : 1 ≤ st.highest_frame ∧ AllocOK st.allocations) :
    1 ≤ (stepPage st e).highest_frame ∧ AllocOK (stepPage st e).allocations := by
  unfold stepPage
  split_ifs <;> first | exact ⟨le_trans h.1 (le_max_left _ _), h.2⟩ | exact h

theorem foldl_pres {α : Type} (P : VMState → Prop) (step : VMState → α → VMState)
    (hstep : ∀ st x, P st → P (step st x)) :
    ∀ (l : List α) (st : VMState), P st → P (l.foldl step st) := by
  intro l
  induction l with
  | nil => intro st h; exact h
  | cons x l ih => intro st h; exact ih _ (hstep st x h)

theorem inv_fresh : VMInv freshState :=
  ⟨le_refl 2, le_refl 1, fun e he => absurd he (List.not_mem_nil e)⟩

theorem inv_initFromFile (segs : List (ℕ × ℤ × ℤ)) (pages : List (ℕ × ℕ × ℤ)) :
    VMInv (initFromFile segs pages) := by
  have h1 := foldl_pres (fun st => 1 ≤ st.highest_frame ∧ AllocOK st.allocations)
    stepSeg stepSeg_pres segs freshState
    ⟨le_refl 1, fun e he => absurd he (List.not_mem_nil e)⟩
  have h2 := foldl_pres (fun st => 1 ≤ st.highest_frame ∧ AllocOK st.allocations)
    stepPage stepPage_pres pages _ h1
  exact ⟨Nat.succ_le_succ h2.1, h2.1, h2.2⟩

theorem reachable_inv (st : VMState) (h : Reachable st) : VMInv st := by
  induction h with
  | boot => exact inv_fresh
  | fromFile segs pages => exact inv_initFromFile segs pages
  | tr st va _ ih => exact inv_translate st va ih
  | mal st size _ ih => exact inv_malloc st size ih
  | fre st address _ ih => exact inv_free st address ih
  | rea st address new_size _ ih => exact inv_realloc st address new_size ih

/-- Claim C7: in every reachable state, frames 0 and 1 are never returned
by `get_next_free_frame`, never chosen by `evict_lfu_frame`, and never
appear in the frame list of any allocation record. -/
theorem c7_reserved_frames (st : VMState) (h : Reachable st) :
    ((get_next_free_frame st).1 ≠ 0 ∧ (get_next_free_frame st).1 ≠ 1)
    ∧ (∀ f, (evict_lfu_frame st).1 = some f → f ≠ 0 ∧ f ≠ 1)
    ∧ ∀ e ∈ st.allocations, ∀ f ∈ e.2.2, f ≠ 0 ∧ f ≠ 1 := by
  have hInv := reachable_inv st h
  refine ⟨?_, ?_, ?_⟩
  · have h1 := gnff_ge st
    have h2 := hInv.1
    constructor <;> omega
  · intro f hf
    cases hp : lfuPick st.frame_access_count (st.used_frames \ {0, 1}) with
    | none => simp [evict_lfu_frame, hp] at hf
    | some a =>
      have haf : a = f := by simpa [evict_lfu_frame, hp] using hf
      subst haf
      have hmem := Finset.mem_sdiff.mp (lfuPick_mem _ _ a hp)
      have hne : a ∉ ({0, 1} : Finset ℕ) := hmem.2
      simp at hne
      exact hne
  · intro e he f hf
    have := hInv.2.2 e he f hf
    omega

/-- Witness for C7 at the fresh state. -/
theorem c7_witness :
    ((get_next_free_frame freshState).1 ≠ 0 ∧ (get_next_free_frame freshState).1 ≠ 1)
    ∧ (∀ f, (evict_lfu_frame freshState).1 = some f → f ≠ 0 ∧ f ≠ 1)
    ∧ ∀ e ∈ freshState.allocations, ∀ f ∈ e.2.2, f ≠ 0 ∧ f ≠ 1 :=
  c7_reserved_frames freshState Reachable.boot
